import Mathlib

/-!
Verification development for the satellite pass-scheduling and tracking
repository (main.py, operations/get_satellite_passes.py,
operations/get_satellite_position.py, repo/api.py, repo/database.py).

The Python sources are shallowly embedded: times are integers (seconds on a
common absolute axis, the order-faithful image of the parsed datetimes the
code compares), angles and distances are rationals, fallible lookups are
`Option`, and the stateful scan loops of `main` are explicit structural
recursions over the event lists.  Python's `sorted`/`list.sort` (a stable
sort) is embedded as `List.insertionSort`, which is also stable, and a
stable sort with respect to a fixed total preorder is extensionally unique,
so the two agree on every input.
-/

/-- Python's builtin `round` on a rational: round half to even (banker's
rounding), as used by `round(x, 1)` in the source. -/
def roundHalfEven (q : ℚ) : ℤ :=
  let n := ⌊q⌋
  if q - n < 1/2 then n
  else if q - n > 1/2 then n + 1
  else if n % 2 = 0 then n else n + 1

/-- `round(x, 1)` from the source: one decimal place. -/
def round1 (q : ℚ) : ℚ := (roundHalfEven (q * 10) : ℚ) / 10

/-- The pure angle mapping of `adjust_azimuth_elevation`
(get_satellite_position.py lines 41-65): wrap azimuths above 180° back into
[0,180] while mirroring the elevation around 90°, then apply the 5° downward
clearance offset floored at 0.  The servo commands themselves
(`set_angle`) are the actuator side effect and carry exactly this pair. -/
def adjust_azimuth_elevation (azimuth elevation : ℚ) : ℚ × ℚ :=
  let p := if azimuth > 180 then (azimuth - 180, 90 - (elevation - 90)) else (azimuth, elevation)
  (p.1, max 0 (p.2 - 5))

/-- The three event names produced by get_satellite_passes.py line 68:
'Satellite Rise', 'culminate', 'Satellite Set'. -/
inductive EventKind
  | rise
  | culminate
  | set
deriving DecidableEq

/-- One pass event as consumed by the selection loop of `main`
(main.py lines 91-117): its kind string and its parsed instant. -/
structure PassEv where
  event : EventKind
  time : ℤ
deriving DecidableEq

/-- The inner per-satellite scan of `main` (main.py lines 88-117).
Arguments after the event list: the running `rise_event` and the
`culminate_event` variable, which in the source is initialised once
*outside* the satellite loop (main.py line 81) and therefore carries over
from one satellite to the next.  Returns the final
(`rise_event`, `set_event`, `culminate_event`); the source breaks out of
the loop at the first accepted set event. -/
def scanPasses (now : ℤ) : List PassEv → Option ℤ → Option ℤ → Option ℤ × Option ℤ × Option ℤ
  | [], riseEv, culmEv => (riseEv, none, culmEv)
  | p :: rest, riseEv, culmEv =>
    let riseEv' := if p.event = EventKind.rise ∧ p.time > now then some p.time else riseEv
    match riseEv' with
    | none => scanPasses now rest none culmEv
    | some rt =>
      let culmEv' := if p.event = EventKind.culminate ∧ p.time > rt then some p.time else culmEv
      if p.event = EventKind.set ∧ p.time > rt then (some rt, some p.time, culmEv')
      else scanPasses now rest (some rt) culmEv'

/-- The outer satellite loop of `main` (main.py lines 87-131): scan each
satellite's events and keep the candidate with the strictly smallest rise
time seen so far (`rise_event['event_time'] < next_rise['event_time']`).
The second state component is the shared `culminate_event` variable.
Returns (`next_rise`/`next_set` combined as (name, rise, set), the final
`culminate_event`). -/
def selectLoop (now : ℤ) :
    List (String × List PassEv) → Option (String × ℤ × ℤ) → Option ℤ →
    Option (String × ℤ × ℤ) × Option ℤ
  | [], nextSel, culmEv => (nextSel, culmEv)
  | (nm, passes) :: rest, nextSel, culmEv =>
    let r := scanPasses now passes none culmEv
    match r.1, r.2.1 with
    | some rt, some st =>
      let nextSel' :=
        match nextSel with
        | none => some (nm, rt, st)
        | some cur => if rt < cur.2.1 then some (nm, rt, st) else nextSel
      selectLoop now rest nextSel' r.2.2
    | _, _ => selectLoop now rest nextSel r.2.2

/-- Next-pass selection of `main` (main.py lines 79-131), starting from
`next_rise = next_set = culminate_event = None`. -/
def selectNext (now : ℤ) (sats : List (String × List PassEv)) :
    Option (String × ℤ × ℤ) × Option ℤ :=
  selectLoop now sats none none

/-- A well-formed pass: a rise, an optional culmination, and a set, used to
describe the event streams over which the selection claims quantify. -/
structure PassBlock where
  riseT : ℤ
  culmT : Option ℤ
  setT : ℤ
deriving DecidableEq

/-- The time-ordered event list of one pass block. -/
def PassBlock.events (b : PassBlock) : List PassEv :=
  match b.culmT with
  | some c => [⟨EventKind.rise, b.riseT⟩, ⟨EventKind.culminate, c⟩, ⟨EventKind.set, b.setT⟩]
  | none => [⟨EventKind.rise, b.riseT⟩, ⟨EventKind.set, b.setT⟩]

/-- One satellite's event stream obtained from a sequence of pass blocks. -/
def streamOf (bs : List PassBlock) : List PassEv := bs.flatMap PassBlock.events

/-- Internal well-formedness of one block: rise before (culmination before)
set. -/
def PassBlock.ok (b : PassBlock) : Bool :=
  match b.culmT with
  | some c => decide (b.riseT < c) && decide (c < b.setT)
  | none => decide (b.riseT < b.setT)

/-- A chain of pass blocks with strictly increasing event instants; the
optional first argument is a strict lower bound on the next rise. -/
def blocksChain : Option ℤ → List PassBlock → Bool
  | _, [] => true
  | lb, b :: rest =>
    (match lb with
     | none => true
     | some t => decide (t < b.riseT)) &&
    b.ok && blocksChain (some b.setT) rest

/-- The first pass block of a stream whose rise is strictly after `now`. -/
def firstFutureBlock (now : ℤ) (bs : List PassBlock) : Option PassBlock :=
  bs.find? (fun b => decide (now < b.riseT))

/-- Each satellite's candidate next pass, in catalogue order: the first
block of its chain whose rise is strictly in the future. -/
def futureCands (now : ℤ) (catalog : List (String × List PassBlock)) :
    List (String × ℤ × ℤ) :=
  catalog.filterMap (fun p => (firstFutureBlock now p.2).map (fun b => (p.1, b.riseT, b.setT)))

/-- One comparison step of the specification-side selection: keep the
candidate with the strictly smaller rise time, the earlier one on ties. -/
def argminStep : Option (String × ℤ × ℤ) → String × ℤ × ℤ → Option (String × ℤ × ℤ) :=
  fun acc c =>
    match acc with
    | none => some c
    | some a => if c.2.1 < a.2.1 then some c else acc

/-- The specification-side selection: the candidate with minimal rise time,
the earliest listed winning on ties. -/
def argminRise (l : List (String × ℤ × ℤ)) : Option (String × ℤ × ℤ) :=
  l.foldl argminStep none

/-- `time_until_wake` of main.py line 142: seconds until two minutes before
the selected rise. -/
def time_until_wake (riseTime now : ℤ) : ℤ := (riseTime - now) - 2 * 60

/-- The wait executed before entering the tracking loop (main.py lines
145-150): the source sleeps only when `time_until_wake` is positive, which
is a clamp of the sleep duration at zero. -/
def sleepBeforeTracking (riseTime now : ℤ) : ℤ :=
  if time_until_wake riseTime now > 0 then time_until_wake riseTime now else 0

/-- What one iteration of `main`'s outer loop does after pass selection
(main.py lines 133-153): with no pass, print and retry after 60 s;
with a selected pass, sleep the clamped wait and then unconditionally
enter the tracking loop. -/
inductive CycleAction
  | idleRetry (delaySeconds : ℤ)
  | sleepThenTrack (sleepSeconds : ℤ) (satName : String) (riseT setT : ℤ)
deriving DecidableEq

/-- The scheduling step of `main` (main.py lines 133-153). -/
def mainCycleStep (now : ℤ) (sats : List (String × List PassEv)) : CycleAction :=
  match (selectNext now sats).1 with
  | none => CycleAction.idleRetry 60
  | some s => CycleAction.sleepThenTrack (sleepBeforeTracking s.2.1 now) s.1 s.2.1 s.2.2

/-- One live position record as built by `satellite_position`
(get_satellite_position.py lines 172-180). -/
structure PosRec where
  name : String
  elevation : ℚ
  azimuth : ℚ
  distance_km : ℚ
  latitude : ℚ
  longitude : ℚ
deriving DecidableEq

/-- The live-result lookup of the tracking loop (main.py lines 156-159):
`next((s for s in position if s['name'] == name), None)`. -/
def lookupSat (nm : String) (position : List PosRec) : Option PosRec :=
  position.find? (fun s => decide (s.name = nm))

/-- `time_until_pass` as recomputed inside the tracking loop
(main.py line 163): seconds from `now` to the *rise* event of the selected
pass. -/
def time_until_pass (riseTime now : ℤ) : ℤ := riseTime - now

/-- The exit test of the tracking loop (main.py lines 167-172):
`satelliteInHorizon and satelliteInHorizon['elevation'] <
gs.start_tracking_elevation and time_until_pass < 0`.  A missing lookup
result (`None`) short-circuits the conjunction, so the elevation of a
missing record is never dereferenced. -/
def exitTracking (minElev : ℚ) (riseTime now : ℤ) (satelliteInHorizon : Option PosRec) : Bool :=
  match satelliteInHorizon with
  | none => false
  | some s => decide (s.elevation < minElev) && decide (time_until_pass riseTime now < 0)

/-- One TLE record together with the topocentric quantities the external
ephemeris library (skyfield) reports for it at the current instant; input
to `satellite_position`. -/
structure TleObs where
  name : String
  auto_tracking : Bool
  orbit_status : String
  altDeg : ℚ
  azDeg : ℚ
  distKm : ℚ
  latDeg : ℚ
  lonDeg : ℚ
deriving DecidableEq

/-- `satellite_position` (get_satellite_position.py lines 100-187): build a
position record for every fetched TLE, command the servos only for objects
above the threshold that are auto-tracking and orbiting (lines 141-143),
and return the records sorted by slant distance.  First component: the
returned `positions` list; second: the names for which servo commands were
issued this call. -/
def satellite_position (minElev : ℚ) (objs : List TleObs) : List PosRec × List String :=
  let commanded := (objs.filter (fun o =>
      decide (o.altDeg > minElev) && o.auto_tracking &&
      decide (o.orbit_status = "orbiting"))).map (fun o => o.name)
  let positions := objs.map (fun o =>
      PosRec.mk o.name (round1 o.altDeg) (round1 o.azDeg) (round1 o.distKm) o.latDeg o.lonDeg)
  (List.insertionSort (fun a b => a.distance_km ≤ b.distance_km) positions, commanded)

/-- One raw JSON satellite object as returned by the remote API
(repo/api.py lines 41-59); `.get` on a dict yields `None` for missing
keys, hence the `Option` fields used by the filter. -/
structure RawApiSat where
  name : String
  line1 : String
  line2 : String
  tle_group : String
  auto_tracking : Option Bool
  orbit_status : Option String
  created_at : Option String
  last_updated : Option String
deriving DecidableEq

/-- A parsed `SatelliteTLE` entity (entities/sat_tle.py); the two date
strings are kept opaque since no claim depends on them. -/
structure SatelliteTLE where
  name : String
  line1 : String
  line2 : String
  tle_group : String
  auto_tracking : Bool
  orbit_status : String
  created_at : Option String
  last_updated : Option String
deriving DecidableEq

/-- One stored row of the SatelliteTLE table (repo/database.py). -/
structure DbSatRow where
  name : String
  line1 : String
  line2 : String
  tle_group : String
  auto_tracking : Bool
  orbit_status : String
  created_at : Option String
  last_updated : Option String
deriving DecidableEq

/-- `get_all_satellites_from_db` (repo/database.py lines 98-146): the SQL
`WHERE orbit_status = 'orbiting' AND auto_tracking = TRUE` is embedded as
the corresponding filter over the table rows. -/
def get_all_satellites_from_db (table : List DbSatRow) : List SatelliteTLE :=
  (table.filter (fun r => decide (r.orbit_status = "orbiting") && r.auto_tracking)).map
    (fun r => SatelliteTLE.mk r.name r.line1 r.line2 r.tle_group r.auto_tracking
      r.orbit_status r.created_at r.last_updated)

/-- `fetch_and_parse_satellite_data` (repo/api.py lines 20-77): when the
API call succeeds, keep exactly the objects with `orbit_status ==
'orbiting'` and `auto_tracking is True` (lines 45-60); when it fails, fall
back to the database query. -/
def fetch_and_parse_satellite_data (apiResult : Option (List RawApiSat))
    (table : List DbSatRow) : List SatelliteTLE :=
  match apiResult with
  | some ds =>
    ds.filterMap (fun d =>
      match d.orbit_status, d.auto_tracking with
      | some st, some tr =>
        if st = "orbiting" ∧ tr = true then
          some (SatelliteTLE.mk d.name d.line1 d.line2 d.tle_group tr st
            d.created_at d.last_updated)
        else none
      | _, _ => none)
  | none => get_all_satellites_from_db table

/-- C1: the claim says the tracking loop never exits while `now` is at or
before the selected pass's *set* time.  In the source the loop's time
conjunct is `time_until_pass < 0` with `time_until_pass` computed from
`next_rise['event_time']` (main.py lines 163 and 167-171), i.e. from the
*rise* time.  Below, the selected pass of a well-formed stream has rise
100 and set 200; at `now = 150 ≤ 200` with the object reported at
elevation 0 below the 10° threshold, the loop exit test is already true,
contradicting the claim (and the source's own intent of tracking "until
the pass ends"). -/
theorem C1_exit_fires_before_set_time :
    (selectNext 0 [("SAT-1", [⟨EventKind.rise, 100⟩, ⟨EventKind.set, 200⟩])]).1 =
      some ("SAT-1", 100, 200) ∧
    exitTracking 10 100 150 (some (PosRec.mk "SAT-1" 0 0 0 0 0)) = true ∧
    (150 : ℤ) ≤ 200 := by
  decide

/-- C7: the angle mapper sends (azimuth 200°, elevation 80°) to (20°, 95°),
and (azimuth 90°, elevation 40°) — no mirroring — to (90°, 35°), exactly as
the claim's worked examples state. -/
theorem C7_angle_mapper_examples :
    adjust_azimuth_elevation 200 80 = (20, 95) ∧
    adjust_azimuth_elevation 90 40 = (90, 35) := by
  constructor <;> norm_num [adjust_azimuth_elevation]

/-- C6 counterexample: the claim quantifies over *every* input pair and
asserts a final clamping step into [0°, 180°].  The source has no such
clamp: azimuth 400° (elevation 10°) is mapped to azimuth 220°, outside
[0°, 180°]. -/
theorem C6_counterexample_no_clamp :
    (adjust_azimuth_elevation 400 10).1 = 220 ∧
    ¬ (adjust_azimuth_elevation 400 10).1 ≤ 180 := by
  norm_num [adjust_azimuth_elevation]

/-- C6 (amended): for inputs in the ranges the source documents for its
arguments — azimuth in [0°, 360°], elevation in [0°, 90°] — both outputs of
the angle mapper lie in [0°, 180°]; the bounds follow from the arithmetic
and the `max` floor, not from a clamping step, and inputs outside those
ranges can leave the interval. -/
theorem C6_outputs_bounded_on_documented_ranges (azimuth elevation : ℚ)
    (haz0 : 0 ≤ azimuth) (haz1 : azimuth ≤ 360)
    (hel0 : 0 ≤ elevation) (hel1 : elevation ≤ 90) :
    0 ≤ (adjust_azimuth_elevation azimuth elevation).1 ∧
    (adjust_azimuth_elevation azimuth elevation).1 ≤ 180 ∧
    0 ≤ (adjust_azimuth_elevation azimuth elevation).2 ∧
    (adjust_azimuth_elevation azimuth elevation).2 ≤ 180 := by
  by_cases h : azimuth > 180
  · have h1 : (adjust_azimuth_elevation azimuth elevation).1 = azimuth - 180 := by
      simp [adjust_azimuth_elevation, h]
    have h2 : (adjust_azimuth_elevation azimuth elevation).2 =
        max 0 ((90 - (elevation - 90)) - 5) := by
      simp [adjust_azimuth_elevation, h]
    rw [h1, h2]
    exact ⟨by linarith, by linarith, le_max_left _ _, max_le (by linarith) (by linarith)⟩
  · have h1 : (adjust_azimuth_elevation azimuth elevation).1 = azimuth := by
      simp [adjust_azimuth_elevation, h]
    have h2 : (adjust_azimuth_elevation azimuth elevation).2 = max 0 (elevation - 5) := by
      simp [adjust_azimuth_elevation, h]
    rw [h1, h2]
    exact ⟨by linarith, by linarith, le_max_left _ _, max_le (by linarith) (by linarith)⟩

/-- Witness for the amended C6 theorem at the concrete input (200°, 80°). -/
theorem C6_outputs_bounded_witness :
    0 ≤ (adjust_azimuth_elevation 200 80).1 ∧
    (adjust_azimuth_elevation 200 80).1 ≤ 180 ∧
    0 ≤ (adjust_azimuth_elevation 200 80).2 ∧
    (adjust_azimuth_elevation 200 80).2 ≤ 180 :=
  C6_outputs_bounded_on_documented_ranges 200 80 (by norm_num) (by norm_num)
    (by norm_num) (by norm_num)

/-- C5 counterexample: the claim's own example asserts that with rise
10:00:00 (36000 s) and `now` 09:59:00 (35940 s) the sleep is 60 s.  The
wake time 09:58:00 is already past at 09:59:00, so the source sleeps 0 s,
not 60 s. -/
theorem C5_counterexample_sleep_at_0959 :
    sleepBeforeTracking 36000 35940 = 0 ∧ sleepBeforeTracking 36000 35940 ≠ 60 := by
  decide

/-- C5 (amended): the wake time is rise − 120 s and the executed sleep is
the clamp of (wake − now) at zero, so with rise 10:00:00: at 09:57:00 the
sleep is 60 s, while at 09:59:00 and 09:58:30 — both past the wake time —
it is 0 rather than negative; and whenever a pass is selected the cycle
proceeds to the tracking loop (after the possibly-zero sleep) rather than
skipping the pass. -/
theorem C5_wake_and_clamp_amended :
    (∀ riseTime now : ℤ,
      sleepBeforeTracking riseTime now = max 0 ((riseTime - 2 * 60) - now)) ∧
    sleepBeforeTracking 36000 35820 = 60 ∧
    sleepBeforeTracking 36000 35940 = 0 ∧
    sleepBeforeTracking 36000 35910 = 0 ∧
    (∀ (now : ℤ) (sats : List (String × List PassEv)) (nm : String) (rt st : ℤ),
      (selectNext now sats).1 = some (nm, rt, st) →
        mainCycleStep now sats =
          CycleAction.sleepThenTrack (sleepBeforeTracking rt now) nm rt st) := by
  refine ⟨?_, by decide, by decide, by decide, ?_⟩
  · intro riseTime now
    simp only [sleepBeforeTracking, time_until_wake]
    split_ifs with h
    · omega
    · omega
  · intro now sats nm rt st hsel
    simp only [mainCycleStep, hsel]

/-- Witness for the amended C5 theorem: a concrete selected pass (rise 100,
set 200) at `now = 0`, whose cycle action is the clamped sleep followed by
tracking. -/
theorem C5_wake_and_clamp_witness :
    (selectNext 0 [("SAT-1", [⟨EventKind.rise, 100⟩, ⟨EventKind.set, 200⟩])]).1 =
      some ("SAT-1", 100, 200) ∧
    mainCycleStep 0 [("SAT-1", [⟨EventKind.rise, 100⟩, ⟨EventKind.set, 200⟩])] =
      CycleAction.sleepThenTrack (sleepBeforeTracking 100 0) "SAT-1" 100 200 :=
  ⟨by decide,
   C5_wake_and_clamp_amended.2.2.2.2 0
     [("SAT-1", [⟨EventKind.rise, 100⟩, ⟨EventKind.set, 200⟩])] "SAT-1" 100 200 (by decide)⟩

/-- Every fetched object's position record is in the list `satellite_position`
returns: the source appends an `info` record for every TLE in the fetched
list before sorting (get_satellite_position.py lines 172-187). -/
theorem mem_positions_of_mem_objs (minElev : ℚ) (objs : List TleObs) (o : TleObs)
    (ho : o ∈ objs) :
    PosRec.mk o.name (round1 o.altDeg) (round1 o.azDeg) (round1 o.distKm) o.latDeg o.lonDeg ∈
      (satellite_position minElev objs).1 := by
  simp only [satellite_position]
  rw [(List.perm_insertionSort _ _).mem_iff]
  exact List.mem_map_of_mem _ ho

/-- C2: when the tracked object is absent from the live position result set
(the guarded `next(..., None)` lookup returns `None`), the tick never
dereferences the missing record (the lookup is an `Option` and the exit test
matches `none` without touching an elevation), the servo-command path of
`satellite_position` never commands that object's name this tick, and the
tracking-loop exit test is false for every value of `now` — in particular
even past the set time. -/
theorem C2_missing_object_guarded (minElev : ℚ) (objs : List TleObs) (nm : String)
    (riseTime now : ℤ)
    (habs : lookupSat nm (satellite_position minElev objs).1 = none) :
    exitTracking minElev riseTime now (lookupSat nm (satellite_position minElev objs).1) = false ∧
    nm ∉ (satellite_position minElev objs).2 := by
  constructor
  · rw [habs]
    rfl
  · intro hmem
    simp only [satellite_position, List.mem_map, List.mem_filter] at hmem
    obtain ⟨o, ⟨ho, _⟩, honame⟩ := hmem
    have hp := mem_positions_of_mem_objs minElev objs o ho
    rw [lookupSat, List.find?_eq_none] at habs
    have := habs _ hp
    simp only [decide_eq_true_eq] at this
    exact this honame

/-- Witness for the C2 theorem: one live object OBJ-1 is present, the
tracked object OBJ-2 is absent from the live result set. -/
theorem C2_missing_object_guarded_witness :
    lookupSat "OBJ-2" (satellite_position 10 [TleObs.mk "OBJ-1" true "orbiting" 45 90 500 0 0]).1
      = none ∧
    (exitTracking 10 100 200
        (lookupSat "OBJ-2"
          (satellite_position 10 [TleObs.mk "OBJ-1" true "orbiting" 45 90 500 0 0]).1) = false ∧
      "OBJ-2" ∉ (satellite_position 10 [TleObs.mk "OBJ-1" true "orbiting" 45 90 500 0 0]).2) :=
  ⟨by decide,
   C2_missing_object_guarded 10 [TleObs.mk "OBJ-1" true "orbiting" 45 90 500 0 0]
     "OBJ-2" 100 200 (by decide)⟩

/-- C9: every object in the list returned by the catalogue fetch — on the
API path (repo/api.py lines 45-60) as well as on the database-fallback path
(repo/database.py lines 116-137) — has `auto_tracking = true` and
`orbit_status = 'orbiting'`; anything failing either condition is filtered
out before the list is returned. -/
theorem C9_catalogue_only_enabled_orbiting (apiResult : Option (List RawApiSat))
    (table : List DbSatRow) (s : SatelliteTLE)
    (hs : s ∈ fetch_and_parse_satellite_data apiResult table) :
    s.auto_tracking = true ∧ s.orbit_status = "orbiting" := by
  cases apiResult with
  | none =>
    simp only [fetch_and_parse_satellite_data, get_all_satellites_from_db, List.mem_map,
      List.mem_filter, Bool.and_eq_true, decide_eq_true_eq] at hs
    obtain ⟨r, ⟨_, hstat, htrack⟩, rfl⟩ := hs
    exact ⟨htrack, hstat⟩
  | some ds =>
    simp only [fetch_and_parse_satellite_data, List.mem_filterMap] at hs
    obtain ⟨d, _, hd⟩ := hs
    cases hst : d.orbit_status with
    | none => rw [hst] at hd; cases hd
    | some st =>
      cases htr : d.auto_tracking with
      | none => rw [hst, htr] at hd; cases hd
      | some tr =>
        rw [hst, htr] at hd
        dsimp only at hd
        by_cases hcond : st = "orbiting" ∧ tr = true
        · rw [if_pos hcond] at hd
          cases hd
          exact ⟨hcond.2, hcond.1⟩
        · rw [if_neg hcond] at hd
          cases hd

/-- Witness for the C9 theorem: a concrete API payload with one conforming
and one non-conforming object; the conforming parsed entity is in the
returned list and satisfies both conditions. -/
theorem C9_catalogue_only_enabled_orbiting_witness :
    SatelliteTLE.mk "ISS" "L1" "L2" "stations" true "orbiting" none none ∈
      fetch_and_parse_satellite_data
        (some [RawApiSat.mk "ISS" "L1" "L2" "stations" (some true) (some "orbiting") none none,
               RawApiSat.mk "OLD" "L1" "L2" "stations" (some true) (some "decayed") none none])
        [] ∧
    ((SatelliteTLE.mk "ISS" "L1" "L2" "stations" true "orbiting" none none).auto_tracking = true ∧
     (SatelliteTLE.mk "ISS" "L1" "L2" "stations" true "orbiting" none none).orbit_status
       = "orbiting") :=
  ⟨by decide,
   C9_catalogue_only_enabled_orbiting
     (some [RawApiSat.mk "ISS" "L1" "L2" "stations" (some true) (some "orbiting") none none,
            RawApiSat.mk "OLD" "L1" "L2" "stations" (some true) (some "decayed") none none])
     [] (SatelliteTLE.mk "ISS" "L1" "L2" "stations" true "orbiting" none none) (by decide)⟩

/-- A block whose rise is not in the future contributes nothing to the scan:
its rise fails `event_time > now`, and with `rise_event` still `None` its
culminate/set events are skipped too (two-event block). -/
theorem scan_skip_noculm (now r s : ℤ) (rest : List PassEv) (c0 : Option ℤ)
    (hfut : ¬ now < r) :
    scanPasses now (PassEv.mk EventKind.rise r :: PassEv.mk EventKind.set s :: rest) none c0 =
      scanPasses now rest none c0 := by
  simp [scanPasses, hfut, gt_iff_lt]

/-- A block whose rise is not in the future contributes nothing to the scan
(three-event block). -/
theorem scan_skip_culm (now r c s : ℤ) (rest : List PassEv) (c0 : Option ℤ)
    (hfut : ¬ now < r) :
    scanPasses now (PassEv.mk EventKind.rise r :: PassEv.mk EventKind.culminate c ::
        PassEv.mk EventKind.set s :: rest) none c0 =
      scanPasses now rest none c0 := by
  simp [scanPasses, hfut, gt_iff_lt]

/-- A future block without culmination is accepted whole: the scan records
its rise, breaks at its set, and leaves the culminate state untouched. -/
theorem scan_future_noculm (now r s : ℤ) (rest : List PassEv) (c0 : Option ℤ)
    (hfut : now < r) (hrs : r < s) :
    scanPasses now (PassEv.mk EventKind.rise r :: PassEv.mk EventKind.set s :: rest) none c0 =
      (some r, some s, c0) := by
  simp [scanPasses, hfut, hrs, gt_iff_lt]

/-- A future block with culmination is accepted whole: the scan records its
rise and culmination and breaks at its set. -/
theorem scan_future_culm (now r c s : ℤ) (rest : List PassEv) (c0 : Option ℤ)
    (hfut : now < r) (hrc : r < c) (hcs : c < s) :
    scanPasses now (PassEv.mk EventKind.rise r :: PassEv.mk EventKind.culminate c ::
        PassEv.mk EventKind.set s :: rest) none c0 =
      (some r, some s, some c) := by
  have hrs : r < s := hrc.trans hcs
  simp [scanPasses, hfut, hrc, hrs, gt_iff_lt]

/-- An internally well-formed block has its rise strictly before its set. -/
theorem PassBlock.ok_rise_lt_set (b : PassBlock) (h : b.ok = true) : b.riseT < b.setT := by
  cases hc : b.culmT with
  | none => simpa [PassBlock.ok, hc] using h
  | some c =>
    rw [PassBlock.ok, hc] at h
    simp only [Bool.and_eq_true, decide_eq_true_eq] at h
    exact h.1.trans h.2

/-- On a well-formed chain of blocks, the per-satellite scan of `main`
returns exactly the first block whose rise is strictly in the future —
its rise and set times, plus its culmination time when it has one (the
incoming `culminate_event` value survives otherwise). -/
theorem scanPasses_chain (now : ℤ) :
    ∀ (bs : List PassBlock) (lb : Option ℤ) (c0 : Option ℤ),
      blocksChain lb bs = true →
      scanPasses now (streamOf bs) none c0 =
        match firstFutureBlock now bs with
        | some b => (some b.riseT, some b.setT, b.culmT.or c0)
        | none => (none, none, c0) := by
  intro bs
  induction bs with
  | nil => intro lb c0 h; simp [streamOf, scanPasses, firstFutureBlock]
  | cons b rest ih =>
    intro lb c0 h
    rw [blocksChain.eq_def] at h
    simp only [Bool.and_eq_true] at h
    obtain ⟨⟨hlb, hok⟩, hchain⟩ := h
    by_cases hfut : now < b.riseT
    · have hff : firstFutureBlock now (b :: rest) = some b := by
        simp [firstFutureBlock, List.find?_cons_of_pos, hfut]
      rw [hff]
      cases hc : b.culmT with
      | none =>
        have hrs : b.riseT < b.setT := b.ok_rise_lt_set hok
        rw [streamOf, List.flatMap_cons, PassBlock.events, hc]
        simpa [hc] using scan_future_noculm now b.riseT b.setT (streamOf rest) c0 hfut hrs
      | some c =>
        rw [PassBlock.ok, hc] at hok
        simp only [Bool.and_eq_true, decide_eq_true_eq] at hok
        rw [streamOf, List.flatMap_cons, PassBlock.events, hc]
        simpa [hc] using
          scan_future_culm now b.riseT c b.setT (streamOf rest) c0 hfut hok.1 hok.2
    · have hff : firstFutureBlock now (b :: rest) = firstFutureBlock now rest := by
        simp [firstFutureBlock, List.find?_cons_of_neg, hfut]
      rw [hff]
      have hskip : scanPasses now (streamOf (b :: rest)) none c0 =
          scanPasses now (streamOf rest) none c0 := by
        cases hc : b.culmT with
        | none =>
          rw [streamOf, List.flatMap_cons, PassBlock.events, hc]
          exact scan_skip_noculm now b.riseT b.setT (streamOf rest) c0 hfut
        | some c =>
          rw [streamOf, List.flatMap_cons, PassBlock.events, hc]
          exact scan_skip_culm now b.riseT c b.setT (streamOf rest) c0 hfut
      rw [hskip]
      exact ih (some b.setT) c0 hchain

/-- The outer loop of `main`, run on the rendered event streams of a
catalogue of well-formed pass chains, folds `argminStep` over the
catalogue's future candidates: each satellite contributes its first future
block (if any), and the accumulator keeps the strictly smaller rise,
earliest first on ties. -/
theorem selectLoop_eq_argminFold (now : ℤ) :
    ∀ (catalog : List (String × List PassBlock)) (acc : Option (String × ℤ × ℤ))
      (c0 : Option ℤ),
      (∀ p ∈ catalog, blocksChain none p.2 = true) →
      (selectLoop now (catalog.map (fun p => (p.1, streamOf p.2))) acc c0).1 =
        (futureCands now catalog).foldl argminStep acc := by
  intro catalog
  induction catalog with
  | nil => intro acc c0 h; simp [selectLoop, futureCands]
  | cons p rest ih =>
    intro acc c0 h
    obtain ⟨nm, bs⟩ := p
    have hhead : blocksChain none bs = true := h (nm, bs) (List.mem_cons_self _ _)
    have hrest : ∀ q ∈ rest, blocksChain none q.2 = true :=
      fun q hq => h q (List.mem_cons_of_mem _ hq)
    have hscan := scanPasses_chain now bs none c0 hhead
    rw [List.map_cons, selectLoop]
    cases hff : firstFutureBlock now bs with
    | none =>
      rw [hff] at hscan
      rw [hscan]
      have hcands : futureCands now ((nm, bs) :: rest) = futureCands now rest := by
        simp [futureCands, hff]
      rw [hcands]
      exact ih acc c0 hrest
    | some b =>
      rw [hff] at hscan
      rw [hscan]
      have hcands : futureCands now ((nm, bs) :: rest) =
          (nm, b.riseT, b.setT) :: futureCands now rest := by
        simp [futureCands, hff]
      rw [hcands, List.foldl_cons]
      exact ih (argminStep acc (nm, b.riseT, b.setT)) (b.culmT.or c0) hrest

/-- Folding `argminStep` from a non-empty accumulator yields a result whose
rise is at most the accumulator's. -/
theorem argminFold_some (l : List (String × ℤ × ℤ)) :
    ∀ a : String × ℤ × ℤ, ∃ w, l.foldl argminStep (some a) = some w ∧ w.2.1 ≤ a.2.1 := by
  induction l with
  | nil => intro a; exact ⟨a, rfl, le_refl _⟩
  | cons x t ih =>
    intro a
    rw [List.foldl_cons]
    by_cases hx : x.2.1 < a.2.1
    · have : argminStep (some a) x = some x := by simp [argminStep, hx]
      rw [this]
      obtain ⟨w, hw, hle⟩ := ih x
      exact ⟨w, hw, hle.trans hx.le⟩
    · have : argminStep (some a) x = some a := by simp [argminStep, hx]
      rw [this]
      exact ih a

/-- Folding `argminStep` over a list yields, for every member, a result
whose rise is at most that member's rise. -/
theorem argminFold_le (l : List (String × ℤ × ℤ)) :
    ∀ (acc : Option (String × ℤ × ℤ)) (c : String × ℤ × ℤ), c ∈ l →
      ∃ w, l.foldl argminStep acc = some w ∧ w.2.1 ≤ c.2.1 := by
  induction l with
  | nil => intro acc c hc; cases hc
  | cons x t ih =>
    intro acc c hc
    rw [List.foldl_cons]
    rcases List.mem_cons.mp hc with hcx | hct
    · subst hcx
      have hstep : ∃ y, argminStep acc c = some y ∧ y.2.1 ≤ c.2.1 := by
        cases acc with
        | none => exact ⟨c, rfl, le_refl _⟩
        | some a =>
          by_cases hlt : c.2.1 < a.2.1
          · exact ⟨c, by simp [argminStep, hlt], le_refl _⟩
          · exact ⟨a, by simp [argminStep, hlt], not_lt.mp hlt⟩
      obtain ⟨y, hy, hyle⟩ := hstep
      rw [hy]
      obtain ⟨w, hw, hwle⟩ := argminFold_some t y
      exact ⟨w, hw, hwle.trans hyle⟩
    · exact ih (argminStep acc x) c hct

/-- Every block of a chain bounded below by `t` has its rise strictly
after `t`. -/
theorem chain_lb (t : ℤ) : ∀ bs : List PassBlock, blocksChain (some t) bs = true →
    ∀ b ∈ bs, t < b.riseT := by
  intro bs
  induction bs generalizing t with
  | nil => intro h b hb; cases hb
  | cons hd rest ih =>
    intro h b hb
    rw [blocksChain.eq_def] at h
    simp only [Bool.and_eq_true, decide_eq_true_eq] at h
    obtain ⟨⟨hlb, hok⟩, hchain⟩ := h
    rcases List.mem_cons.mp hb with hbh | hbt
    · subst hbh; exact hlb
    · have h1 : hd.setT < b.riseT := ih hd.setT hchain b hbt
      have h2 : hd.riseT < hd.setT := hd.ok_rise_lt_set hok
      exact hlb.trans (h2.trans h1)

/-- On a well-formed chain the first future block has minimal rise among
all the chain's future blocks. -/
theorem firstFuture_min (now : ℤ) : ∀ (bs : List PassBlock) (lb : Option ℤ),
    blocksChain lb bs = true → ∀ b ∈ bs, now < b.riseT →
      ∃ b0, firstFutureBlock now bs = some b0 ∧ b0.riseT ≤ b.riseT := by
  intro bs
  induction bs with
  | nil => intro lb h b hb; cases hb
  | cons hd rest ih =>
    intro lb h b hb hbfut
    rw [blocksChain.eq_def] at h
    simp only [Bool.and_eq_true, decide_eq_true_eq] at h
    obtain ⟨⟨hlb, hok⟩, hchain⟩ := h
    by_cases hh : now < hd.riseT
    · refine ⟨hd, by simp [firstFutureBlock, List.find?_cons_of_pos, hh], ?_⟩
      rcases List.mem_cons.mp hb with hbh | hbt
      · subst hbh; exact le_refl _
      · have h1 : hd.setT < b.riseT := chain_lb hd.setT rest hchain b hbt
        have h2 : hd.riseT < hd.setT := hd.ok_rise_lt_set hok
        exact (h2.trans h1).le
    · have hbne : b ≠ hd := by
        intro hbe; subst hbe; exact hh hbfut
      have hbt : b ∈ rest := (List.mem_cons.mp hb).resolve_left hbne
      obtain ⟨b0, hb0, hble⟩ := ih (some hd.setT) hchain b hbt hbfut
      refine ⟨b0, ?_, hble⟩
      simpa [firstFutureBlock, List.find?_cons_of_neg, hh] using hb0

/-- A satellite's first future block yields a member of the catalogue's
candidate list. -/
theorem mem_futureCands (now : ℤ) (catalog : List (String × List PassBlock))
    (nm : String) (bs : List PassBlock) (b0 : PassBlock)
    (hcat : (nm, bs) ∈ catalog) (hff : firstFutureBlock now bs = some b0) :
    (nm, b0.riseT, b0.setT) ∈ futureCands now catalog := by
  simp only [futureCands, List.mem_filterMap]
  exact ⟨(nm, bs), hcat, by simp [hff]⟩

/-- Whenever the per-satellite scan reports both a rise and a set, the set
instant is strictly after the rise instant: the source only accepts a set
event under `event_time > rise_event['event_time']` and breaks
immediately. -/
theorem scanPasses_set_gt_rise (now : ℤ) :
    ∀ (evs : List PassEv) (r0 c0 : Option ℤ) (rt st : ℤ) (c' : Option ℤ),
      scanPasses now evs r0 c0 = (some rt, some st, c') → rt < st := by
  intro evs
  induction evs with
  | nil =>
    intro r0 c0 rt st c' h
    simp only [scanPasses, Prod.mk.injEq] at h
    exact absurd h.2.1 (by simp)
  | cons p rest ih =>
    intro r0 c0 rt st c' h
    simp only [scanPasses] at h
    split at h
    · exact ih _ _ _ _ _ h
    · split at h
      · rename_i hrt hcond
        simp only [Prod.mk.injEq] at h
        obtain ⟨h1, h2, _⟩ := h
        cases h1
        cases h2
        exact hcond.2
      · exact ih _ _ _ _ _ h

/-- Whenever `main`'s outer selection loop returns a pass, its set time is
strictly after its rise time, provided the accumulator already satisfied
that invariant. -/
theorem selectLoop_set_gt_rise (now : ℤ) :
    ∀ (sats : List (String × List PassEv)) (acc : Option (String × ℤ × ℤ)) (c0 : Option ℤ),
      (∀ x : String × ℤ × ℤ, acc = some x → x.2.1 < x.2.2) →
      ∀ (nm : String) (rt st : ℤ) (c' : Option ℤ),
        selectLoop now sats acc c0 = (some (nm, rt, st), c') → rt < st := by
  intro sats
  induction sats with
  | nil =>
    intro acc c0 hacc nm rt st c' h
    simp only [selectLoop, Prod.mk.injEq] at h
    exact hacc (nm, rt, st) h.1
  | cons p rest ih =>
    intro acc c0 hacc nm rt st c' h
    obtain ⟨nm0, passes⟩ := p
    simp only [selectLoop] at h
    split at h
    · rename_i rt0 st0 heq1 heq2
      refine ih _ _ ?_ nm rt st c' h
      intro x hx
      have hscan : scanPasses now passes none c0 =
          (some rt0, some st0, (scanPasses now passes none c0).2.2) := by
        rw [← heq1, ← heq2]
      have hrs : rt0 < st0 := scanPasses_set_gt_rise now passes none c0 rt0 st0 _ hscan
      cases acc with
      | none =>
        simp only at hx
        cases hx
        exact hrs
      | some a =>
        simp only at hx
        by_cases hlt : rt0 < a.2.1
        · rw [if_pos hlt] at hx
          cases hx
          exact hrs
        · rw [if_neg hlt] at hx
          cases hx
          exact hacc _ rfl
    · exact ih _ _ hacc nm rt st c' h

/-- C4 counterexample: the `culminate_event` variable of `main` is
initialised outside the satellite loop and never reset, so the culmination
recorded for the *assembled* pass can come from a different satellite than
the selected rise/set pair.  With satellite A = (rise 10, set 20) selected
and satellite B = (rise 100, culminate 150, set 200) scanned afterwards —
both streams individually well-formed — the assembled value carries
culminate 150, which does not satisfy culminate.time < set.time = 20. -/
theorem C4_counterexample_culminate_leak :
    ([⟨EventKind.rise, 10⟩, ⟨EventKind.set, 20⟩] : List PassEv) =
        streamOf [PassBlock.mk 10 none 20] ∧
    ([⟨EventKind.rise, 100⟩, ⟨EventKind.culminate, 150⟩, ⟨EventKind.set, 200⟩] : List PassEv) =
        streamOf [PassBlock.mk 100 (some 150) 200] ∧
    blocksChain none [PassBlock.mk 10 none 20] = true ∧
    blocksChain none [PassBlock.mk 100 (some 150) 200] = true ∧
    selectNext 0
        [("A", [⟨EventKind.rise, 10⟩, ⟨EventKind.set, 20⟩]),
         ("B", [⟨EventKind.rise, 100⟩, ⟨EventKind.culminate, 150⟩, ⟨EventKind.set, 200⟩])] =
      (some ("A", 10, 20), some 150) ∧
    ¬ ((150 : ℤ) < 20) := by
  decide

/-- C4 (amended): every pass assembled by next-pass selection satisfies
rise.time < set.time; the culminate half of the claimed invariant does not
hold (see the counterexample), because the culminate variable is shared
across satellites. -/
theorem C4_rise_lt_set_amended (now : ℤ) (sats : List (String × List PassEv))
    (nm : String) (rt st : ℤ)
    (h : (selectNext now sats).1 = some (nm, rt, st)) : rt < st := by
  have h2 : selectNext now sats = (some (nm, rt, st), (selectNext now sats).2) :=
    Prod.ext h rfl
  exact selectLoop_set_gt_rise now sats none none (by intro x hx; cases hx) nm rt st _ h2

/-- Witness for the amended C4 theorem at a concrete selected pass. -/
theorem C4_rise_lt_set_witness :
    (selectNext 0 [("SAT", [⟨EventKind.rise, 30⟩, ⟨EventKind.set, 40⟩])]).1 =
        some ("SAT", 30, 40) ∧
    (30 : ℤ) < 40 :=
  ⟨by decide,
   C4_rise_lt_set_amended 0 [("SAT", [⟨EventKind.rise, 30⟩, ⟨EventKind.set, 40⟩])]
     "SAT" 30 40 (by decide)⟩

/-- C3 counterexample: with two satellites whose earliest future rises are
tied at t = 10, iterated in the order B then A, the source keeps the
*first-iterated* satellite B (the update needs a strictly smaller rise,
main.py line 121), not the one with the lowest identifier A < B claimed by
the tie-break. -/
theorem C3_counterexample_tie_break :
    (selectNext 0
        ([("B", [PassBlock.mk 10 none 20]),
          ("A", [PassBlock.mk 10 none 21])].map (fun p => (p.1, streamOf p.2)))).1 =
      some ("B", 10, 20) ∧
    futureCands 0 [("B", [PassBlock.mk 10 none 20]), ("A", [PassBlock.mk 10 none 21])] =
      [("B", 10, 20), ("A", 10, 21)] ∧
    blocksChain none [PassBlock.mk 10 none 20] = true ∧
    blocksChain none [PassBlock.mk 10 none 21] = true ∧
    ("A" : String) < "B" := by
  refine ⟨by decide, by decide, by decide, by decide, ?_⟩
  rw [String.lt_iff_toList_lt]
  decide

/-- C3 (amended): for every catalogue of well-formed pass chains and every
`now`, next-pass selection computes `argminRise` of the per-satellite
future candidates: the pass with the globally minimum rise time among all
passes whose rise is strictly after `now` — but ties are broken in favour
of the satellite iterated *first* in catalogue order, not the lowest
object identifier.  The second conjunct is the global minimality: for
every future pass of every catalogued satellite, the selected rise time is
at most that pass's rise time. -/
theorem C3_selection_minimal_amended (now : ℤ) (catalog : List (String × List PassBlock))
    (h : ∀ p ∈ catalog, blocksChain none p.2 = true) :
    (selectNext now (catalog.map (fun p => (p.1, streamOf p.2)))).1 =
      argminRise (futureCands now catalog) ∧
    ∀ p ∈ catalog, ∀ b ∈ p.2, now < b.riseT →
      ∃ w, (selectNext now (catalog.map (fun p => (p.1, streamOf p.2)))).1 = some w ∧
        w.2.1 ≤ b.riseT := by
  have hmain : (selectNext now (catalog.map (fun p => (p.1, streamOf p.2)))).1 =
      (futureCands now catalog).foldl argminStep none :=
    selectLoop_eq_argminFold now catalog none none h
  constructor
  · exact hmain
  · intro p hp b hb hbfut
    obtain ⟨b0, hb0, hble⟩ := firstFuture_min now p.2 none (h p hp) b hb hbfut
    have hcand := mem_futureCands now catalog p.1 p.2 b0 (by simpa using hp) hb0
    obtain ⟨w, hw, hwle⟩ := argminFold_le (futureCands now catalog) none _ hcand
    refine ⟨w, ?_, le_trans hwle hble⟩
    rw [hmain]
    exact hw

/-- Witness for the amended C3 theorem: a two-satellite catalogue where B
has the strictly earliest future rise; selection picks B, and its rise is
at most the rise of A's future pass. -/
theorem C3_selection_minimal_witness :
    (∀ p ∈ [("A", [PassBlock.mk 10 none 20]), ("B", [PassBlock.mk 5 none 8])],
      blocksChain none p.2 = true) ∧
    (selectNext 0
        ([("A", [PassBlock.mk 10 none 20]),
          ("B", [PassBlock.mk 5 none 8])].map (fun p => (p.1, streamOf p.2)))).1 =
      argminRise (futureCands 0
        [("A", [PassBlock.mk 10 none 20]), ("B", [PassBlock.mk 5 none 8])]) ∧
    (∃ w, (selectNext 0
        ([("A", [PassBlock.mk 10 none 20]),
          ("B", [PassBlock.mk 5 none 8])].map (fun p => (p.1, streamOf p.2)))).1 = some w ∧
      w.2.1 ≤ 10) :=
  ⟨by decide,
   (C3_selection_minimal_amended 0
     [("A", [PassBlock.mk 10 none 20]), ("B", [PassBlock.mk 5 none 8])] (by decide)).1,
   (C3_selection_minimal_amended 0
     [("A", [PassBlock.mk 10 none 20]), ("B", [PassBlock.mk 5 none 8])] (by decide)).2
     ("A", [PassBlock.mk 10 none 20]) (by decide) (PassBlock.mk 10 none 20) (by decide)
     (by decide)⟩

/-- A calendar datetime as handled by `datetime.strptime`/`strftime` with
the format '%Y-%m-%d %H:%M:%S' (no timezone, no microseconds). -/
structure DateTime where
  year : ℕ
  month : ℕ
  day : ℕ
  hour : ℕ
  minute : ℕ
  second : ℕ
deriving DecidableEq

/-- Gregorian leap-year rule, as implemented by Python's `calendar`. -/
def isLeapYear (y : ℕ) : Bool :=
  (y % 4 = 0) && (y % 100 ≠ 0 || y % 400 = 0)

/-- Days in a month of the proleptic Gregorian calendar. -/
def daysInMonth (y m : ℕ) : ℕ :=
  if m = 2 then (if isLeapYear y then 29 else 28)
  else if m = 4 ∨ m = 6 ∨ m = 9 ∨ m = 11 then 30
  else 31

/-- The component ranges `datetime` accepts (year 1-9999, month 1-12, day
valid for the month, hour 0-23, minute 0-59, second 0-59). -/
def validDT (d : DateTime) : Bool :=
  decide (1 ≤ d.year) && decide (d.year ≤ 9999) &&
  decide (1 ≤ d.month) && decide (d.month ≤ 12) &&
  decide (1 ≤ d.day) && decide (d.day ≤ daysInMonth d.year d.month) &&
  decide (d.hour ≤ 23) && decide (d.minute ≤ 59) && decide (d.second ≤ 59)

/-- The decimal digit characters. -/
def digitChar (d : ℕ) : Char :=
  match d with
  | 0 => '0'
  | 1 => '1'
  | 2 => '2'
  | 3 => '3'
  | 4 => '4'
  | 5 => '5'
  | 6 => '6'
  | 7 => '7'
  | 8 => '8'
  | _ => '9'

/-- Decimal rendering of a natural number, most significant digit first. -/
def natToChars (n : ℕ) : List Char :=
  if n = 0 then ['0'] else (Nat.digits 10 n).reverse.map digitChar

/-- Zero-pad a digit string on the left to width `w` (Python's %0wd). -/
def padChars (w : ℕ) (cs : List Char) : List Char :=
  List.replicate (w - cs.length) '0' ++ cs

/-- A natural number zero-padded to width `w`. -/
def padNat (w n : ℕ) : List Char := padChars w (natToChars n)

/-- `strftime('%Y-%m-%d %H:%M:%S')` on the character level. -/
def formatDTChars (d : DateTime) : List Char :=
  padNat 4 d.year ++ ['-'] ++ padNat 2 d.month ++ ['-'] ++ padNat 2 d.day ++
  [' '] ++ padNat 2 d.hour ++ [':'] ++ padNat 2 d.minute ++ [':'] ++ padNat 2 d.second

/-- `strftime('%Y-%m-%d %H:%M:%S')` (get_satellite_passes.py line 86 and
main.py line 54). -/
def formatDT (d : DateTime) : String := String.mk (formatDTChars d)

/-- The numeric value of a decimal digit character, `none` otherwise. -/
def charDigit? (c : Char) : Option ℕ :=
  if 48 ≤ c.toNat ∧ c.toNat ≤ 57 then some (c.toNat - 48) else none

/-- All-digits check yielding the digit values, most significant first. -/
def charsDigits? : List Char → Option (List ℕ)
  | [] => some []
  | c :: cs =>
    match charDigit? c, charsDigits? cs with
    | some d, some ds => some (d :: ds)
    | _, _ => none

/-- The natural number denoted by a non-empty all-digit string. -/
def charsToNat? (cs : List Char) : Option ℕ :=
  match charsDigits? cs with
  | some ds => some (Nat.ofDigits 10 ds.reverse)
  | none => none

/-- Split a character list at every occurrence of the separator `c`
(Python's `str.split(c)` shape, used to mirror the fixed-format regex of
`strptime`). -/
def splitCh (c : Char) : List Char → List (List Char)
  | [] => [[]]
  | x :: xs =>
    if x = c then [] :: splitCh c xs
    else
      match splitCh c xs with
      | [] => [[x]]
      | h :: t => (x :: h) :: t

/-- One 1-2 digit field of `strptime` with an inclusive value range. -/
def parseComp2 (cs : List Char) (lo hi : ℕ) : Option ℕ :=
  if cs.length = 1 ∨ cs.length = 2 then
    match charsToNat? cs with
    | some v => if lo ≤ v ∧ v ≤ hi then some v else none
    | none => none
  else none

/-- `datetime.strptime(s, '%Y-%m-%d %H:%M:%S')` on the character level:
a 4-digit year ≥ 1, 1-2 digit month/day/hour/minute/second fields within
`datetime`'s ranges, the day checked against the month's length; `none`
models the `ValueError` path. -/
def parseDTChars (cs : List Char) : Option DateTime :=
  match splitCh ' ' cs with
  | [dpart, tpart] =>
    (match splitCh '-' dpart, splitCh ':' tpart with
     | [ys, ms, ds], [hs, mis, ss] =>
       if ys.length = 4 then
         match charsToNat? ys, parseComp2 ms 1 12, parseComp2 hs 0 23,
             parseComp2 mis 0 59, parseComp2 ss 0 59 with
         | some y, some mo, some h, some mi, some s =>
           if 1 ≤ y then
             match parseComp2 ds 1 (daysInMonth y mo) with
             | some dd => some (DateTime.mk y mo dd h mi s)
             | none => none
           else none
         | _, _, _, _, _ => none
       else none
     | _, _ => none)
  | _ => none

/-- `datetime.strptime(s, '%Y-%m-%d %H:%M:%S')`. -/
def parseDT (s : String) : Option DateTime := parseDTChars s.data

/-- Chronological key of a valid datetime: the mixed-radix value of its
components.  On valid datetimes its order coincides with Python's
lexicographic `datetime` comparison. -/
def dtKey (d : DateTime) : ℕ :=
  ((((d.year * 13 + d.month) * 32 + d.day) * 24 + d.hour) * 60 + d.minute) * 60 + d.second

/-- Digit characters parse back to their value. -/
theorem charDigit_digitChar (d : ℕ) (hd : d < 10) : charDigit? (digitChar d) = some d := by
  interval_cases d <;> decide

/-- Digit characters are none of the three separators of the datetime
format. -/
theorem digitChar_ne_sep (d : ℕ) (hd : d < 10) :
    digitChar d ≠ '-' ∧ digitChar d ≠ ':' ∧ digitChar d ≠ ' ' := by
  interval_cases d <;> exact ⟨by decide, by decide, by decide⟩

/-- Character lists consisting of decimal digit characters. -/
def AllDigits (cs : List Char) : Prop := ∀ c ∈ cs, ∃ d, d < 10 ∧ c = digitChar d

/-- The decimal rendering of a natural number is all digits. -/
theorem allDigits_natToChars (n : ℕ) : AllDigits (natToChars n) := by
  intro c hc
  rw [natToChars] at hc
  by_cases hn : n = 0
  · rw [if_pos hn] at hc
    simp only [List.mem_singleton] at hc
    exact ⟨0, by norm_num, hc⟩
  · rw [if_neg hn] at hc
    simp only [List.mem_map, List.mem_reverse] at hc
    obtain ⟨d, hd, rfl⟩ := hc
    exact ⟨d, Nat.digits_lt_base (by norm_num) hd, rfl⟩

/-- Zero-padding preserves all-digitness. -/
theorem allDigits_padNat (w n : ℕ) : AllDigits (padNat w n) := by
  intro c hc
  rw [padNat, padChars] at hc
  rcases List.mem_append.mp hc with hrep | hnc
  · exact ⟨0, by norm_num, (List.eq_of_mem_replicate hrep)⟩
  · exact allDigits_natToChars n c hnc

/-- A list without the separator is one whole split field. -/
theorem splitCh_no_sep (c : Char) : ∀ cs : List Char, (∀ x ∈ cs, x ≠ c) →
    splitCh c cs = [cs] := by
  intro cs
  induction cs with
  | nil => intro h; rfl
  | cons x xs ih =>
    intro h
    rw [splitCh, if_neg (h x (List.mem_cons_self _ _))]
    rw [ih (fun y hy => h y (List.mem_cons_of_mem _ hy))]

/-- Splitting peels off a separator-free prefix before a separator. -/
theorem splitCh_append (c : Char) : ∀ (a b : List Char), (∀ x ∈ a, x ≠ c) →
    splitCh c (a ++ c :: b) = a :: splitCh c b := by
  intro a
  induction a with
  | nil => intro b h; simp [splitCh]
  | cons x xs ih =>
    intro b h
    rw [List.cons_append, splitCh, if_neg (h x (List.mem_cons_self _ _))]
    rw [ih b (fun y hy => h y (List.mem_cons_of_mem _ hy))]

/-- Mapped digit values read back as themselves. -/
theorem charsDigits_map_digitChar : ∀ ds : List ℕ, (∀ d ∈ ds, d < 10) →
    charsDigits? (ds.map digitChar) = some ds := by
  intro ds
  induction ds with
  | nil => intro h; rfl
  | cons d t ih =>
    intro h
    rw [List.map_cons, charsDigits?, charDigit_digitChar d (h d (List.mem_cons_self _ _)),
      ih (fun y hy => h y (List.mem_cons_of_mem _ hy))]

/-- Prepending zero characters prepends zero digit values. -/
theorem charsDigits_replicate_zero (k : ℕ) (cs : List Char) :
    ∀ ds, charsDigits? cs = some ds →
      charsDigits? (List.replicate k '0' ++ cs) = some (List.replicate k 0 ++ ds) := by
  induction k with
  | zero => intro ds h; simpa using h
  | succ k ih =>
    intro ds h
    have h0 : charDigit? '0' = some 0 := by decide
    simp only [List.replicate_succ, List.cons_append, charsDigits?, h0, List.append_eq, ih ds h]

/-- A run of zero digits denotes zero. -/
theorem ofDigits_replicate_zero (k : ℕ) : Nat.ofDigits 10 (List.replicate k 0) = 0 := by
  induction k with
  | zero => rfl
  | succ k ih => simp [List.replicate_succ, Nat.ofDigits_cons, ih]

/-- The value digits of the rendering of a positive number. -/
theorem charsDigits_natToChars (n : ℕ) (hn : n ≠ 0) :
    charsDigits? (natToChars n) = some ((Nat.digits 10 n).reverse) := by
  rw [natToChars, if_neg hn]
  exact charsDigits_map_digitChar _ (fun d hd =>
    Nat.digits_lt_base (by norm_num) (List.mem_reverse.mp hd))

/-- The value digits of the rendering of zero. -/
theorem charsDigits_natToChars_zero : charsDigits? (natToChars 0) = some [0] := by
  have h0 : charDigit? '0' = some 0 := by decide
  rw [natToChars, if_pos rfl]
  simp [charsDigits?, h0]

/-- Parsing a zero-padded decimal rendering recovers the number. -/
theorem charsToNat_padNat (w n : ℕ) : charsToNat? (padNat w n) = some n := by
  by_cases hn : n = 0
  · subst hn
    have hd := charsDigits_replicate_zero (w - (natToChars 0).length) _ _
      charsDigits_natToChars_zero
    simp only [charsToNat?, padNat, padChars, hd]
    rw [List.reverse_append, List.reverse_replicate]
    simp [Nat.ofDigits_cons, ofDigits_replicate_zero]
  · have hd := charsDigits_replicate_zero (w - (natToChars n).length) _ _
      (charsDigits_natToChars n hn)
    simp only [charsToNat?, padNat, padChars, hd]
    rw [List.reverse_append, List.reverse_replicate, List.reverse_reverse,
      Nat.ofDigits_append, Nat.ofDigits_digits, ofDigits_replicate_zero]
    simp

/-- Width of the decimal rendering of a bounded number. -/
theorem natToChars_length_le (n k : ℕ) (hk : 1 ≤ k) (hn : n < 10 ^ k) :
    (natToChars n).length ≤ k := by
  rw [natToChars]
  by_cases h0 : n = 0
  · simpa [h0] using hk
  · rw [if_neg h0]
    simp only [List.length_map, List.length_reverse]
    have h1 := Nat.base_pow_length_digits_le 10 n (by norm_num) h0
    have h2 : 10 ^ (Nat.digits 10 n).length < 10 ^ (k + 1) := by
      calc 10 ^ (Nat.digits 10 n).length ≤ 10 * n := h1
        _ < 10 * 10 ^ k := by omega
        _ = 10 ^ (k + 1) := by ring
    have := (Nat.pow_lt_pow_iff_right (by norm_num : 1 < 10)).mp h2
    omega

/-- Width of a zero-padded bounded number. -/
theorem padNat_length (w n : ℕ) (hw : 1 ≤ w) (hn : n < 10 ^ w) :
    (padNat w n).length = w := by
  have := natToChars_length_le n w hw hn
  rw [padNat, padChars, List.length_append, List.length_replicate]
  omega

/-- Zero-padded numbers contain no format separator. -/
theorem padNat_ne_sep (w n : ℕ) : ∀ x ∈ padNat w n, x ≠ '-' ∧ x ≠ ':' ∧ x ≠ ' ' := by
  intro x hx
  obtain ⟨d, hd, rfl⟩ := allDigits_padNat w n x hx
  exact digitChar_ne_sep d hd

/-- Month lengths never exceed 31. -/
theorem daysInMonth_le (y m : ℕ) : daysInMonth y m ≤ 31 := by
  rw [daysInMonth]
  split_ifs <;> norm_num

/-- A 1-2 digit field parses back from its 2-wide zero-padding when the
value is in range. -/
theorem parseComp2_padNat (n lo hi : ℕ) (hlo : lo ≤ n) (hhi : n ≤ hi) (hb : n < 100) :
    parseComp2 (padNat 2 n) lo hi = some n := by
  have hl : (padNat 2 n).length = 2 := padNat_length 2 n (by norm_num) (by norm_num; omega)
  simp only [parseComp2, hl, charsToNat_padNat]
  simp [hlo, hhi]

/-- Formatting a valid datetime and parsing it back is the identity:
`strptime(strftime(d)) == d` for the fixed format. -/
theorem parseDT_formatDT (d : DateTime) (h : validDT d = true) :
    parseDT (formatDT d) = some d := by
  rw [validDT] at h
  simp only [Bool.and_eq_true, decide_eq_true_eq] at h
  obtain ⟨⟨⟨⟨⟨⟨⟨⟨hy1, hy2⟩, hm1⟩, hm2⟩, hd1⟩, hd2⟩, hh⟩, hmi⟩, hs⟩ := h
  have hdle : d.day < 100 := by have := daysInMonth_le d.year d.month; omega
  have hyl : (padNat 4 d.year).length = 4 :=
    padNat_length 4 _ (by norm_num) (by norm_num; omega)
  have hDshape : formatDTChars d =
      (padNat 4 d.year ++ '-' :: (padNat 2 d.month ++ '-' :: padNat 2 d.day)) ++
        ' ' :: (padNat 2 d.hour ++ ':' :: (padNat 2 d.minute ++ ':' :: padNat 2 d.second)) := by
    simp [formatDTChars, List.append_assoc]
  have hnD : ∀ x ∈ padNat 4 d.year ++ '-' :: (padNat 2 d.month ++ '-' :: padNat 2 d.day),
      x ≠ ' ' := by
    intro x hx
    rcases List.mem_append.mp hx with h1 | h1
    · exact (padNat_ne_sep _ _ x h1).2.2
    · rcases List.mem_cons.mp h1 with h2 | h2
      · subst h2; decide
      · rcases List.mem_append.mp h2 with h3 | h3
        · exact (padNat_ne_sep _ _ x h3).2.2
        · rcases List.mem_cons.mp h3 with h4 | h4
          · subst h4; decide
          · exact (padNat_ne_sep _ _ x h4).2.2
  have hnT : ∀ x ∈ padNat 2 d.hour ++ ':' :: (padNat 2 d.minute ++ ':' :: padNat 2 d.second),
      x ≠ ' ' := by
    intro x hx
    rcases List.mem_append.mp hx with h1 | h1
    · exact (padNat_ne_sep _ _ x h1).2.2
    · rcases List.mem_cons.mp h1 with h2 | h2
      · subst h2; decide
      · rcases List.mem_append.mp h2 with h3 | h3
        · exact (padNat_ne_sep _ _ x h3).2.2
        · rcases List.mem_cons.mp h3 with h4 | h4
          · subst h4; decide
          · exact (padNat_ne_sep _ _ x h4).2.2
  have hsplit1 : splitCh ' ' (formatDTChars d) =
      [padNat 4 d.year ++ '-' :: (padNat 2 d.month ++ '-' :: padNat 2 d.day),
       padNat 2 d.hour ++ ':' :: (padNat 2 d.minute ++ ':' :: padNat 2 d.second)] := by
    rw [hDshape, splitCh_append ' ' _ _ hnD, splitCh_no_sep ' ' _ hnT]
  have hsplitD : splitCh '-'
      (padNat 4 d.year ++ '-' :: (padNat 2 d.month ++ '-' :: padNat 2 d.day)) =
      [padNat 4 d.year, padNat 2 d.month, padNat 2 d.day] := by
    rw [splitCh_append '-' _ _ (fun x hx => (padNat_ne_sep _ _ x hx).1),
      splitCh_append '-' _ _ (fun x hx => (padNat_ne_sep _ _ x hx).1),
      splitCh_no_sep '-' _ (fun x hx => (padNat_ne_sep _ _ x hx).1)]
  have hsplitT : splitCh ':'
      (padNat 2 d.hour ++ ':' :: (padNat 2 d.minute ++ ':' :: padNat 2 d.second)) =
      [padNat 2 d.hour, padNat 2 d.minute, padNat 2 d.second] := by
    rw [splitCh_append ':' _ _ (fun x hx => (padNat_ne_sep _ _ x hx).2.1),
      splitCh_append ':' _ _ (fun x hx => (padNat_ne_sep _ _ x hx).2.1),
      splitCh_no_sep ':' _ (fun x hx => (padNat_ne_sep _ _ x hx).2.1)]
  show parseDTChars (formatDTChars d) = some d
  rw [parseDTChars, hsplit1]
  simp only [hsplitD, hsplitT, hyl, if_pos rfl, charsToNat_padNat,
    parseComp2_padNat d.month 1 12 hm1 hm2 (by omega),
    parseComp2_padNat d.hour 0 23 (Nat.zero_le _) hh (by omega),
    parseComp2_padNat d.minute 0 59 (Nat.zero_le _) hmi (by omega),
    parseComp2_padNat d.second 0 59 (Nat.zero_le _) hs (by omega),
    parseComp2_padNat d.day 1 (daysInMonth d.year d.month) hd1 hd2 hdle,
    hy1]
  simp

/-- A digit character's value is below 10. -/
theorem charDigit_lt (c : Char) (d : ℕ) (h : charDigit? c = some d) : d < 10 := by
  rw [charDigit?] at h
  by_cases hc : 48 ≤ c.toNat ∧ c.toNat ≤ 57
  · rw [if_pos hc] at h
    cases h
    omega
  · rw [if_neg hc] at h
    cases h

/-- `charsDigits?` yields one value per character, all below 10. -/
theorem charsDigits_spec : ∀ (cs : List Char) (ds : List ℕ), charsDigits? cs = some ds →
    ds.length = cs.length ∧ ∀ x ∈ ds, x < 10 := by
  intro cs
  induction cs with
  | nil =>
    intro ds h
    cases h
    exact ⟨rfl, by intro x hx; cases hx⟩
  | cons c t ih =>
    intro ds h
    rw [charsDigits?] at h
    cases hc : charDigit? c with
    | none => rw [hc] at h; cases h
    | some d =>
      rw [hc] at h
      cases ht : charsDigits? t with
      | none => rw [ht] at h; cases h
      | some dt =>
        rw [ht] at h
        cases h
        obtain ⟨hlen, hlt⟩ := ih dt ht
        refine ⟨by simp [hlen], ?_⟩
        intro x hx
        rcases List.mem_cons.mp hx with hxd | hxt
        · subst hxd; exact charDigit_lt c x hc
        · exact hlt x hxt

/-- A parsed digit string is bounded by 10 to its length. -/
theorem charsToNat_lt (cs : List Char) (v : ℕ) (h : charsToNat? cs = some v) :
    v < 10 ^ cs.length := by
  rw [charsToNat?] at h
  cases hd : charsDigits? cs with
  | none => rw [hd] at h; cases h
  | some ds =>
    rw [hd] at h
    cases h
    obtain ⟨hlen, hlt⟩ := charsDigits_spec cs ds hd
    have := Nat.ofDigits_lt_base_pow_length (by norm_num : (1:ℕ) < 10)
      (fun x hx => hlt x (List.mem_reverse.mp hx))
    simpa [hlen] using this

/-- `parseComp2` only returns values inside its range. -/
theorem parseComp2_bounds (cs : List Char) (lo hi v : ℕ)
    (h : parseComp2 cs lo hi = some v) : lo ≤ v ∧ v ≤ hi := by
  rw [parseComp2] at h
  by_cases hlen : cs.length = 1 ∨ cs.length = 2
  · rw [if_pos hlen] at h
    cases hv : charsToNat? cs with
    | none => rw [hv] at h; cases h
    | some w =>
      rw [hv] at h
      dsimp only at h
      by_cases hr : lo ≤ w ∧ w ≤ hi
      · rw [if_pos hr] at h; cases h; exact hr
      · rw [if_neg hr] at h; cases h
  · rw [if_neg hlen] at h; cases h

/-- Whatever `strptime` accepts is a valid datetime: all components are
within `datetime`'s ranges. -/
theorem parseDT_valid (s : String) (d : DateTime) (h : parseDT s = some d) :
    validDT d = true := by
  rw [parseDT, parseDTChars] at h
  split at h
  · split at h
    · split at h
      · split at h
        · split at h
          · split at h
            · rename_i x8 dpart tpart heq8 x7 x6 ys ms ds hs mis ss heq7 heq6 hlen4
                x5 x4 x3 x2 x1 y mo hh mi s2 heq5 heq4 heq3 heq2 heq1 hy1 x0 v heq0
              cases h
              have hylt := charsToNat_lt ys y heq5
              rw [hlen4] at hylt
              norm_num at hylt
              have hmo' := parseComp2_bounds ms 1 12 mo heq4
              have hhh' := parseComp2_bounds hs 0 23 hh heq3
              have hmi' := parseComp2_bounds mis 0 59 mi heq2
              have hss' := parseComp2_bounds ss 0 59 s2 heq1
              have hdd' := parseComp2_bounds ds 1 _ v heq0
              simp only [validDT, Bool.and_eq_true, decide_eq_true_eq]
              refine ⟨⟨⟨⟨⟨⟨⟨⟨hy1, by omega⟩, hmo'.1⟩, hmo'.2⟩, hdd'.1⟩, hdd'.2⟩,
                hhh'.2⟩, hmi'.2⟩, hss'.2⟩
            · cases h
          · cases h
        · cases h
      · cases h
    · cases h
  · cases h

/-- One pass dict as consumed by `sort_satellite_passes` (main.py lines
25-56): its 'event_time' string, its 'satellite' key (absent on input,
written by step 1), and the remaining payload ('event', angles, distance)
kept opaque since the function never touches it. -/
structure PassRecord where
  event_time : String
  satellite : Option String
  rest : String
deriving DecidableEq

/-- Step 1 of `sort_satellite_passes` (main.py lines 37-41): flatten the
dict into a single list, writing each satellite key into its records. -/
def flattenAnnotate (decodedData : List (String × List PassRecord)) : List PassRecord :=
  decodedData.flatMap (fun p => p.2.map (fun q => { q with satellite := some p.1 }))

/-- Step 2 of `sort_satellite_passes` (main.py lines 44-47): parse every
'event_time'; an unparseable string raises `ValueError`, modelled as
`none`. -/
def parseAll : List PassRecord → Option (List (PassRecord × DateTime))
  | [] => some []
  | q :: qs =>
    match parseDT q.event_time, parseAll qs with
    | some dt, some rest => some ((q, dt) :: rest)
    | _, _ => none

/-- `sort_satellite_passes` (main.py lines 25-56): flatten and annotate,
parse the times, sort by the parsed datetime (Python's `sorted` is stable;
`insertionSort` is the stable sort on the same key, and stable sorting is
extensionally unique; on the valid datetimes produced by parsing, `dtKey`
ordering is the `datetime` ordering), then re-serialise the times. -/
def sort_satellite_passes (decodedData : List (String × List PassRecord)) :
    Option (List PassRecord) :=
  match parseAll (flattenAnnotate decodedData) with
  | none => none
  | some parsed =>
    some ((List.insertionSort (fun a b => dtKey a.2 ≤ dtKey b.2) parsed).map
      (fun a => { a.1 with event_time := formatDT a.2 }))

/-- A record with its 'event_time' re-serialised through parse/format;
the identity on records whose time the function would reject. -/
def reserialize (q : PassRecord) : PassRecord :=
  match parseDT q.event_time with
  | some dt => { q with event_time := formatDT dt }
  | none => q

/-- The chronological key of a record's 'event_time' (0 if unparseable). -/
def dtKeyOf (q : PassRecord) : ℕ :=
  match parseDT q.event_time with
  | some dt => dtKey dt
  | none => 0

/-- When every record's time parses, `parseAll` succeeds and pairs each
record with its parsed time, in order. -/
theorem parseAll_of_isSome : ∀ l : List PassRecord,
    (∀ q ∈ l, (parseDT q.event_time).isSome = true) →
    ∃ parsed, parseAll l = some parsed ∧ parsed.map Prod.fst = l ∧
      ∀ x ∈ parsed, parseDT x.1.event_time = some x.2 := by
  intro l
  induction l with
  | nil =>
    intro h
    exact ⟨[], rfl, rfl, by intro x hx; cases hx⟩
  | cons q qs ih =>
    intro h
    obtain ⟨dt, hdt⟩ := Option.isSome_iff_exists.mp (h q (List.mem_cons_self _ _))
    obtain ⟨rest, hrest, hrmap, hrfacts⟩ := ih (fun y hy => h y (List.mem_cons_of_mem _ hy))
    refine ⟨(q, dt) :: rest, ?_, by simp [hrmap], ?_⟩
    · rw [parseAll, hdt, hrest]
    · intro x hx
      rcases List.mem_cons.mp hx with hx1 | hx2
      · subst hx1; exact hdt
      · exact hrfacts x hx2

/-- C10: for every input mapping with parseable 'event_time' strings,
`sort_satellite_passes` succeeds and returns (i) a permutation of all the
input records combined, each annotated with the satellite key it came from
and its time re-serialised through the '%Y-%m-%d %H:%M:%S' round-trip;
(ii) a list ordered non-decreasing by (parsed) event time; (iii) records
whose 'event_time' strings are again in the same format (they parse); and
(iv) each output record traces back to a record of some input satellite,
carrying that satellite's key. -/
theorem C10_sort_passes (decodedData : List (String × List PassRecord))
    (hp : ∀ p ∈ decodedData, ∀ q ∈ p.2, (parseDT q.event_time).isSome = true) :
    ∃ out, sort_satellite_passes decodedData = some out ∧
      out.Perm ((flattenAnnotate decodedData).map reserialize) ∧
      List.Pairwise (fun a b => dtKeyOf a ≤ dtKeyOf b) out ∧
      (∀ r ∈ out, (parseDT r.event_time).isSome = true) ∧
      (∀ r ∈ out, ∃ sat passes q, (sat, passes) ∈ decodedData ∧ q ∈ passes ∧
        r = reserialize { q with satellite := some sat }) := by
  have hflat : ∀ q ∈ flattenAnnotate decodedData, (parseDT q.event_time).isSome = true := by
    intro q hq
    simp only [flattenAnnotate, List.mem_flatMap, List.mem_map] at hq
    obtain ⟨p, hpmem, q0, hq0, rfl⟩ := hq
    exact hp p hpmem q0 hq0
  obtain ⟨parsed, hparsed, hmap, hfacts⟩ := parseAll_of_isSome _ hflat
  have hpermsort : (List.insertionSort
      (fun a b : PassRecord × DateTime => dtKey a.2 ≤ dtKey b.2) parsed).Perm parsed :=
    List.perm_insertionSort _ _
  have hmemsort : ∀ a, a ∈ List.insertionSort
      (fun a b : PassRecord × DateTime => dtKey a.2 ≤ dtKey b.2) parsed → a ∈ parsed :=
    fun a ha => hpermsort.mem_iff.mp ha
  refine ⟨(List.insertionSort (fun a b => dtKey a.2 ≤ dtKey b.2) parsed).map
    (fun a => { a.1 with event_time := formatDT a.2 }), ?_, ?_, ?_, ?_, ?_⟩
  · rw [sort_satellite_passes, hparsed]
  · have h2 : parsed.map (fun a : PassRecord × DateTime =>
        { a.1 with event_time := formatDT a.2 }) =
        (flattenAnnotate decodedData).map reserialize := by
      rw [← hmap, List.map_map]
      apply List.map_congr_left
      intro a ha
      simp [Function.comp, reserialize, hfacts a ha]
    rw [← h2]
    exact hpermsort.map _
  · letI : IsTotal (PassRecord × DateTime) (fun a b => dtKey a.2 ≤ dtKey b.2) :=
      ⟨fun a b => le_total _ _⟩
    letI : IsTrans (PassRecord × DateTime) (fun a b => dtKey a.2 ≤ dtKey b.2) :=
      ⟨fun a b c hab hbc => le_trans hab hbc⟩
    have hsort := List.sorted_insertionSort
      (fun a b : PassRecord × DateTime => dtKey a.2 ≤ dtKey b.2) parsed
    rw [List.pairwise_map]
    refine List.Pairwise.imp_of_mem ?_ hsort
    intro a b ha hb hab
    have hva : validDT a.2 = true := parseDT_valid _ _ (hfacts a (hmemsort a ha))
    have hvb : validDT b.2 = true := parseDT_valid _ _ (hfacts b (hmemsort b hb))
    simpa [dtKeyOf, parseDT_formatDT _ hva, parseDT_formatDT _ hvb] using hab
  · intro r hr
    simp only [List.mem_map] at hr
    obtain ⟨a, ha, rfl⟩ := hr
    have hva : validDT a.2 = true := parseDT_valid _ _ (hfacts a (hmemsort a ha))
    simp [parseDT_formatDT _ hva]
  · intro r hr
    simp only [List.mem_map] at hr
    obtain ⟨a, ha, rfl⟩ := hr
    have hmem : a ∈ parsed := hmemsort a ha
    have h1a : a.1 ∈ flattenAnnotate decodedData := by
      rw [← hmap]
      exact List.mem_map_of_mem _ hmem
    simp only [flattenAnnotate, List.mem_flatMap, List.mem_map] at h1a
    obtain ⟨p, hpmem, q0, hq0, hq⟩ := h1a
    have hres : reserialize a.1 = { a.1 with event_time := formatDT a.2 } := by
      simp [reserialize, hfacts a hmem]
    refine ⟨p.1, p.2, q0, by simpa using hpmem, hq0, ?_⟩
    rw [← hres, hq]

/-- Witness for the C10 theorem: a concrete two-satellite mapping with
parseable event times, out of chronological order across satellites. -/
theorem C10_sort_passes_witness :
    (∀ p ∈ [("S2", [PassRecord.mk "2024-01-02 10:30:00" none "a"]),
            ("S1", [PassRecord.mk "2024-01-02 09:15:00" none "b"])],
      ∀ q ∈ p.2, (parseDT q.event_time).isSome = true) ∧
    (∃ out, sort_satellite_passes
        [("S2", [PassRecord.mk "2024-01-02 10:30:00" none "a"]),
         ("S1", [PassRecord.mk "2024-01-02 09:15:00" none "b"])] = some out ∧
      out.Perm ((flattenAnnotate
        [("S2", [PassRecord.mk "2024-01-02 10:30:00" none "a"]),
         ("S1", [PassRecord.mk "2024-01-02 09:15:00" none "b"])]).map reserialize) ∧
      List.Pairwise (fun a b => dtKeyOf a ≤ dtKeyOf b) out ∧
      (∀ r ∈ out, (parseDT r.event_time).isSome = true) ∧
      (∀ r ∈ out, ∃ sat passes q,
        (sat, passes) ∈ [("S2", [PassRecord.mk "2024-01-02 10:30:00" none "a"]),
          ("S1", [PassRecord.mk "2024-01-02 09:15:00" none "b"])] ∧ q ∈ passes ∧
        r = reserialize { q with satellite := some sat })) :=
  ⟨by decide, C10_sort_passes _ (by decide)⟩

/-- `timedelta(hours=2)` on a calendar datetime (get_satellite_passes.py
line 78): add two hours with day/month/year rollover. -/
def addTwoHours (d : DateTime) : DateTime :=
  if d.hour + 2 ≤ 23 then { d with hour := d.hour + 2 }
  else if d.day + 1 ≤ daysInMonth d.year d.month then
    { d with hour := d.hour + 2 - 24, day := d.day + 1 }
  else if d.month + 1 ≤ 12 then
    { d with hour := d.hour + 2 - 24, day := 1, month := d.month + 1 }
  else
    { d with hour := d.hour + 2 - 24, day := 1, month := 1, year := d.year + 1 }

/-- One raw event of `satellite.find_events` (get_satellite_passes.py
lines 58-63) together with the topocentric quantities skyfield reports at
the event instant (lines 80-82): the UTC instant, the event index into the
`event_names` tuple, and elevation/azimuth/distance. -/
structure RawEvent where
  ti : DateTime
  event : Fin 3
  altDeg : ℚ
  azDeg : ℚ
  distKm : ℚ
deriving DecidableEq

/-- The `event_names` tuple of get_satellite_passes.py line 68. -/
def event_names (i : Fin 3) : String :=
  if i.val = 0 then "Satellite Rise"
  else if i.val = 1 then "culminate"
  else "Satellite Set"

/-- One output dict of the pass finder (get_satellite_passes.py lines
85-91). -/
structure PassEventOut where
  event_time : String
  event : String
  elevation : ℚ
  azimuth : ℚ
  distance : ℚ
deriving DecidableEq

/-- The body of the per-event loop (get_satellite_passes.py lines 71-91):
shift the UTC instant two hours to local, format it, name the event, round
the angles and the distance. -/
def formatEvent (e : RawEvent) : PassEventOut :=
  PassEventOut.mk (formatDT (addTwoHours e.ti)) (event_names e.event)
    (round1 e.altDeg) (round1 e.azDeg) (round1 e.distKm)

/-- Python dict assignment `d[k] = v`: overwrite in place if the key
exists (keeping its position), else append. -/
def dictInsert (d : List (String × List PassEventOut)) (k : String)
    (v : List PassEventOut) : List (String × List PassEventOut) :=
  if d.any (fun p => p.1 = k) then d.map (fun p => if p.1 = k then (k, v) else p)
  else d ++ [(k, v)]

/-- `get_satellite_passes` (get_satellite_passes.py lines 17-97), with the
per-satellite event streams (and the topocentric values at each event) as
input in place of the skyfield calls: for every TLE record, format each of
its events and store the list under the satellite's name.  No validation
of any kind is performed on the event stream. -/
def get_satellite_passes (tleData : List (String × List RawEvent)) :
    List (String × List PassEventOut) :=
  tleData.foldl (fun acc p => dictInsert acc p.1 (p.2.map formatEvent)) []

/-- Folding the per-satellite stores from an accumulator whose keys avoid
the remaining satellites appends one formatted entry per satellite. -/
theorem get_satellite_passes_fold : ∀ (l : List (String × List RawEvent))
    (acc : List (String × List PassEventOut)),
    (∀ k ∈ acc.map Prod.fst, k ∉ l.map Prod.fst) → (l.map Prod.fst).Nodup →
    l.foldl (fun acc p => dictInsert acc p.1 (p.2.map formatEvent)) acc =
      acc ++ l.map (fun p => (p.1, p.2.map formatEvent)) := by
  intro l
  induction l with
  | nil => intro acc hdis hnd; simp
  | cons p rest ih =>
    intro acc hdis hnd
    obtain ⟨k, evs⟩ := p
    rw [List.foldl_cons]
    have hknot : ¬ acc.any (fun q => q.1 = k) = true := by
      intro hany
      obtain ⟨q, hqmem, hqk⟩ := List.any_eq_true.mp hany
      have := hdis q.1 (List.mem_map_of_mem _ hqmem)
      rw [List.map_cons] at this
      exact this (by simp [decide_eq_true_eq.mp hqk])
    have hins : dictInsert acc k (evs.map formatEvent) = acc ++ [(k, evs.map formatEvent)] := by
      rw [dictInsert, if_neg hknot]
    rw [hins]
    rw [List.map_cons] at hnd
    have hnd' : (rest.map Prod.fst).Nodup := hnd.of_cons
    have hknotrest : k ∉ rest.map Prod.fst := by
      have := List.nodup_cons.mp hnd
      exact this.1
    have hdis' : ∀ k2 ∈ (acc ++ [(k, evs.map formatEvent)]).map Prod.fst,
        k2 ∉ rest.map Prod.fst := by
      intro k2 hk2
      rw [List.map_append] at hk2
      rcases List.mem_append.mp hk2 with h1 | h1
      · have := hdis k2 h1
        rw [List.map_cons] at this
        exact fun hc => this (List.mem_cons_of_mem _ hc)
      · simp only [List.map_cons, List.map_nil, List.mem_singleton] at h1
        subst h1
        exact hknotrest
    rw [ih _ hdis' hnd', List.append_assoc]
    simp

/-- C8 counterexample: the claim says an object whose event stream is not
strictly increasing has its data discarded for the cycle.  The finder
performs no such validation: for object X with a Set at 10:00:00 followed
by a Rise at 09:00:00 (instants strictly decreasing), the output still
carries both formatted events — nothing is discarded.  The last conjunct
checks the first output's local event time (UTC shifted by +2 h,
re-parsed) to show the events really are emitted. -/
theorem C8_counterexample_no_discard :
    dtKey (DateTime.mk 2024 1 1 9 0 0) < dtKey (DateTime.mk 2024 1 1 10 0 0) ∧
    get_satellite_passes
        [("X", [RawEvent.mk (DateTime.mk 2024 1 1 10 0 0) 2 0 0 0,
                RawEvent.mk (DateTime.mk 2024 1 1 9 0 0) 0 0 0 0])] =
      [("X", [formatEvent (RawEvent.mk (DateTime.mk 2024 1 1 10 0 0) 2 0 0 0),
              formatEvent (RawEvent.mk (DateTime.mk 2024 1 1 9 0 0) 0 0 0 0)])] ∧
    get_satellite_passes
        [("X", [RawEvent.mk (DateTime.mk 2024 1 1 10 0 0) 2 0 0 0,
                RawEvent.mk (DateTime.mk 2024 1 1 9 0 0) 0 0 0 0])] ≠ [("X", [])] ∧
    parseDT (formatEvent (RawEvent.mk (DateTime.mk 2024 1 1 10 0 0) 2 0 0 0)).event_time =
      some (DateTime.mk 2024 1 1 12 0 0) := by
  refine ⟨by decide, rfl, by decide, ?_⟩
  show parseDT (formatDT (addTwoHours (DateTime.mk 2024 1 1 10 0 0))) = _
  rw [show addTwoHours (DateTime.mk 2024 1 1 10 0 0) = DateTime.mk 2024 1 1 12 0 0 by decide]
  exact parseDT_formatDT _ (by decide)

/-- C8 (amended): the pass finder performs no monotonicity validation and
discards nothing: for distinct satellite names, its output stores, for
*every* object — whether or not its event instants are strictly
increasing — exactly its own events, formatted in order; each object's
entry depends only on that object's event stream, so other objects are
unaffected by a malformed one. -/
theorem C8_no_validation_amended (tleData : List (String × List RawEvent))
    (hnd : (tleData.map Prod.fst).Nodup) :
    get_satellite_passes tleData = tleData.map (fun p => (p.1, p.2.map formatEvent)) := by
  have h := get_satellite_passes_fold tleData [] (by intro k hk; cases hk) hnd
  simpa [get_satellite_passes] using h

/-- Witness for the amended C8 theorem: satellite X's stream is strictly
decreasing, Y's is increasing; both are returned formatted, X undiscarded. -/
theorem C8_no_validation_witness :
    (([("X", [RawEvent.mk (DateTime.mk 2024 1 1 10 0 0) 2 0 0 0,
              RawEvent.mk (DateTime.mk 2024 1 1 9 0 0) 0 0 0 0]),
       ("Y", [RawEvent.mk (DateTime.mk 2024 1 2 5 0 0) 0 0 0 0])].map Prod.fst).Nodup) ∧
    get_satellite_passes
        [("X", [RawEvent.mk (DateTime.mk 2024 1 1 10 0 0) 2 0 0 0,
                RawEvent.mk (DateTime.mk 2024 1 1 9 0 0) 0 0 0 0]),
         ("Y", [RawEvent.mk (DateTime.mk 2024 1 2 5 0 0) 0 0 0 0])] =
      [("X", [RawEvent.mk (DateTime.mk 2024 1 1 10 0 0) 2 0 0 0,
              RawEvent.mk (DateTime.mk 2024 1 1 9 0 0) 0 0 0 0]),
       ("Y", [RawEvent.mk (DateTime.mk 2024 1 2 5 0 0) 0 0 0 0])].map
        (fun p => (p.1, p.2.map formatEvent)) :=
  ⟨by decide,
   C8_no_validation_amended
     [("X", [RawEvent.mk (DateTime.mk 2024 1 1 10 0 0) 2 0 0 0,
             RawEvent.mk (DateTime.mk 2024 1 1 9 0 0) 0 0 0 0]),
      ("Y", [RawEvent.mk (DateTime.mk 2024 1 2 5 0 0) 0 0 0 0])] (by decide)⟩
